import Mathlib

/-!
Shallow embedding of rtlamr-collect (main.go): the protocol-variant
decoding and stateful dedup engine.  Go machine integers are modelled as
Nat / Int with explicit reductions mod 2^64 where the code converts
between signed and unsigned; timestamps and durations are Int values in
nanoseconds, matching Go's time.Duration.  Fallible collaborators (the
bbolt store) are modelled with explicit failure-injection flags.
-/

/-- threshold from main.go line 38: 30 * time.Second, in nanoseconds. -/
def threshold : Int := 30 * 1000000000

/-- 2^64 as an Int, the modulus of Go's uint/int conversions. -/
def twoPow64 : Int := 18446744073709551616

/-- Meter identity from main.go (type Meter): endpoint id, endpoint type,
protocol tag. -/
structure Meter where
  endpointID : Nat
  endpointType : Nat
  protocol : String
deriving DecidableEq

/-- LastMessage from main.go: a meter's last interval time and index. -/
structure LastMessage where
  time : Int
  interval : Nat
deriving DecidableEq

/-- IDM message fields from main.go (type IDM), shared by the IDM and
NetIDM protocol tags. -/
structure IDM where
  endpointType : Nat
  endpointID : Nat
  transmitTime : Nat
  intervalIdx : Nat
  intervalDiff : List Nat
  outage : List Nat
  idmConsumption : Nat
  netIDMConsumption : Nat
  netIDMConsumptionNet : Nat
  netIDMGeneration : Nat
deriving DecidableEq

/-- Go expression from main.go line 120: uint(int(idm.IntervalIdx)-idx) % 256.
The signed subtraction reinterpreted as uint64 is subtraction modulo 2^64. -/
def goInterval (a idx : Nat) : Nat :=
  ((((a : Int) - (idx : Int)) % twoPow64).toNat) % 256

/-- Go expression from main.go line 143: uint(46 - idx), the shift count of
the outage-bit test, again a signed value reinterpreted modulo 2^64. -/
def goShift (idx : Nat) : Nat :=
  (((46 : Int) - (idx : Int)) % twoPow64).toNat

/-- main.go lines 90-92: an 8-byte buffer whose last six bytes receive
copy(outageBytes[2:], idm.Outage); copy transfers at most 6 bytes and
leaves the remainder zero. -/
def outageBytes (bs : List Nat) : List Nat :=
  [0, 0] ++ (bs.take 6 ++ List.replicate (6 - bs.length) 0)

/-- binary.BigEndian.Uint64 over a byte list; each element is a Go byte,
modelled as a Nat reduced mod 256. -/
def beUint64 (bs : List Nat) : Nat :=
  bs.foldl (fun acc b => acc * 256 + b % 256) 0

/-- The outage word of main.go line 93. -/
def outageWord (bs : List Nat) : Nat := beUint64 (outageBytes bs)

/-- main.go line 74: time.Duration(idm.TransmitTime) * time.Second / 16,
in nanoseconds (Go Duration division truncates; the operand is nonnegative). -/
def intervalOffset (transmitTime : Nat) : Int :=
  ((transmitTime * 1000000000) / 16 : Nat)

/-- main.go line 123: msg.Time.Add(-time.Duration(idx)*5*time.Minute -
intervalOffset). -/
def intervalTime (msgTime off : Int) (idx : Nat) : Int :=
  msgTime - (idx : Int) * (5 * 60 * 1000000000) - off

/-- main.go line 132: diff > -threshold && diff < threshold. -/
def inThreshold (diff : Int) : Bool :=
  decide (-threshold < diff) && decide (diff < threshold)

/-- main.go line 143: (outage >> uint(46-idx)) & 1 == 1. -/
def outageBit (w idx : Nat) : Bool :=
  (w >>> goShift idx) &&& 1 == 1

/-- One differential reading as produced by the loop body of IDM.AddPoints:
its offset, computed timestamp, computed interval slot, usage value, and
whether its outage bit is set. -/
structure DiffRec where
  idx : Nat
  time : Int
  interval : Nat
  consumption : Nat
  outage : Bool
deriving DecidableEq

/-- The reading the loop body of IDM.AddPoints builds at offset idx. -/
def mkRec (a : Nat) (msgTime off : Int) (w idx usage : Nat) : DiffRec :=
  ⟨idx, intervalTime msgTime off idx, goInterval a idx, usage, outageBit w idx⟩

/-- The differential loop of IDM.AddPoints (main.go lines 118-148): readings
are visited newest to oldest; with prior state, the first reading whose slot
equals the stored slot and whose timestamp is within the threshold of the
stored timestamp makes the function return, dropping it and everything
after it. -/
def diffRecsAux (a : Nat) (msgTime off : Int) (w : Nat)
    (stateOpt : Option LastMessage) : Nat → List Nat → List DiffRec
  | _, [] => []
  | idx, usage :: rest =>
    match stateOpt with
    | some st =>
      if goInterval a idx = st.interval ∧
          inThreshold (st.time - intervalTime msgTime off idx) = true then
        []
      else
        mkRec a msgTime off w idx usage ::
          diffRecsAux a msgTime off w (some st) (idx + 1) rest
    | none =>
      mkRec a msgTime off w idx usage ::
        diffRecsAux a msgTime off w none (idx + 1) rest

/-- The differential readings IDM.AddPoints emits for a message, given the
state looked up for the meter before the store update. -/
def diffRecs (idm : IDM) (msgTime : Int) (stateOpt : Option LastMessage) :
    List DiffRec :=
  diffRecsAux idm.intervalIdx msgTime (intervalOffset idm.transmitTime)
    (outageWord idm.outage) stateOpt 0 idm.intervalDiff

/-- Concrete input for the C1 witness: the scenario of spec section 8,
interval index 12, readings [7,6,5,4], prior state slot 10 at time 0,
arrival 600 s later. -/
def idmEx1 : IDM := ⟨7, 123, 0, 12, [7, 6, 5, 4], [], 0, 0, 0, 0⟩

/-- Events observable from IDM.AddPoints and the state store: a call to
MeterMap.Update with the new state, an emission through eachFn, or a log
record. -/
inductive Event where
  | update : Meter → LastMessage → Event
  | emit : Int → List (String × String) → List (String × Int) → Event
  | logged : String → Event
deriving DecidableEq

def isEmit : Event → Bool
  | Event.emit _ _ _ => true
  | _ => false

def isUpdate : Event → Bool
  | Event.update _ _ => true
  | _ => false

def isLogged : Event → Bool
  | Event.logged _ => true
  | _ => false

/-- main.go line 76: Meter{idm.EndpointID, idm.EndpointType, msg.Type}. -/
def meterOf (idm : IDM) (msgType : String) : Meter :=
  ⟨idm.endpointID, idm.endpointType, msgType⟩

/-- main.go lines 84-87: the state stored for the meter, anchor timestamp
(arrival minus transmit offset) and current interval index. -/
def newState (idm : IDM) (msgTime : Int) : LastMessage :=
  ⟨msgTime - intervalOffset idm.transmitTime, idm.intervalIdx⟩

/-- The in-memory mirror m.m of MeterMap. -/
def MeterState := Meter → Option LastMessage

/-- main.go lines 95-100 (tag map of the cumulative record). -/
def cumulativeTags (msgType : String) (idm : IDM) : List (String × String) :=
  [("protocol", msgType), ("msg_type", "cumulative"),
   ("endpoint_type", toString idm.endpointType),
   ("endpoint_id", toString idm.endpointID)]

/-- main.go line 115: tags reused with msg_type replaced by differential. -/
def differentialTags (msgType : String) (idm : IDM) : List (String × String) :=
  [("protocol", msgType), ("msg_type", "differential"),
   ("endpoint_type", toString idm.endpointType),
   ("endpoint_id", toString idm.endpointID)]

/-- main.go lines 102-110: cumulative fields, overridden for NetIDM. -/
def cumulativeFields (msgType : String) (idm : IDM) : List (String × Int) :=
  if msgType == "NetIDM" then
    [("consumption", (idm.netIDMConsumption : Int)),
     ("generation", (idm.netIDMGeneration : Int)),
     ("consumption_net", (idm.netIDMConsumptionNet : Int))]
  else
    [("consumption", (idm.idmConsumption : Int))]

/-- main.go lines 137-145: fields of one differential record, with the
outage field present exactly when the record's outage bit is set. -/
def diffFields (r : DiffRec) : List (String × Int) :=
  [("consumption", (r.consumption : Int)), ("interval", (r.interval : Int))] ++
    (if r.outage then [("outage", (1 : Int))] else [])

/-- The event sequence of one IDM.AddPoints call (main.go lines 72-148):
the state lookup is made first, the store update is issued before any
emission, then the cumulative record and the deduplicated differential
records are emitted in order. -/
def addPointsTrace (idm : IDM) (msgTime : Int) (msgType : String)
    (mirror : MeterState) : List Event :=
  Event.update (meterOf idm msgType) (newState idm msgTime) ::
  Event.emit (msgTime - intervalOffset idm.transmitTime)
    (cumulativeTags msgType idm) (cumulativeFields msgType idm) ::
  (diffRecs idm msgTime (mirror (meterOf idm msgType))).map
    (fun r => Event.emit r.time (differentialTags msgType idm) (diffFields r))

/-- Checks the ordering the spec asserts for the no-prior-state case: after
an update event no further emission occurs (emit-all, then persist). -/
def noEmitAfterUpdate : List Event → Bool
  | [] => true
  | Event.update _ _ :: rest =>
    rest.all (fun e => !(isEmit e)) && noEmitAfterUpdate rest
  | _ :: rest => noEmitAfterUpdate rest

/-- The everywhere-empty mirror: no meter has prior state. -/
def emptyMirror : MeterState := fun _ => none

/-- The on-disk bucket of MeterMap, keyed by meter identity (serialization
is a bijective encoding, so the map is modelled directly on identities). -/
def Disk := Meter → Option LastMessage

/-- Failure injection for one MeterMap.Update call: whether each fallible
step of the transaction closure (msgpack.Marshal of key and value, bkt.Put)
and the final transaction commit succeed. -/
structure StoreOutcome where
  marshalKeyOk : Bool
  marshalValOk : Bool
  putOk : Bool
  commitOk : Bool
deriving DecidableEq

/-- Store-level events of one MeterMap.Update call, in order: the durable
transaction commit of a pair, and the in-memory mirror assignment performed
by the tx.OnCommit callback. -/
inductive StoreEvent where
  | commitPair : Meter → LastMessage → StoreEvent
  | mirrorSet : Meter → LastMessage → StoreEvent
deriving DecidableEq

/-- Pointwise map update, the effect of m.m[meter] = msg and of committing
the serialized pair into the meters bucket. -/
def setState (f : Meter → Option LastMessage) (meter : Meter)
    (msg : LastMessage) : Meter → Option LastMessage :=
  fun m => if m = meter then some msg else f m

/-- MeterMap.Update (main.go lines 297-330).  Modelled from the spec: the
bbolt library itself is not part of this repository; its documented
db.Update/tx.OnCommit contract — the closure runs inside a transaction,
a closure error rolls the transaction back, the commit makes the pair
durable atomically, and OnCommit callbacks run only after a successful
commit — is taken from the spec's description of the durable state store
(crash-safe transactional commit, in-memory update only after durable
commit).  Returns the new mirror, the new disk state, the ordered store
events, and the error returned to the caller. -/
def mupdate (mirror : MeterState) (disk : Disk) (meter : Meter)
    (msg : LastMessage) (o : StoreOutcome) :
    MeterState × Disk × List StoreEvent × Option String :=
  if o.marshalKeyOk = true then
    if o.marshalValOk = true then
      if o.putOk = true then
        if o.commitOk = true then
          (setState mirror meter msg, setState disk meter msg,
           [StoreEvent.commitPair meter msg, StoreEvent.mirrorSet meter msg],
           none)
        else (mirror, disk, [], some "m.db.Update: commit")
      else (mirror, disk, [], some "bkt.Put")
    else (mirror, disk, [], some "msgpack.Marshal")
  else (mirror, disk, [], some "msgpack.Marshal")

/-- Scans a store-event list and checks that every mirror assignment is
preceded by a durable commit of the same identity/state pair. -/
def commitBeforeMirror (seen : List (Meter × LastMessage)) :
    List StoreEvent → Bool
  | [] => true
  | StoreEvent.commitPair m s :: rest =>
    commitBeforeMirror ((m, s) :: seen) rest
  | StoreEvent.mirrorSet m s :: rest =>
    seen.contains (m, s) && commitBeforeMirror seen rest

/-- One full processing step for a differential message: the state lookup
is taken from the mirror before the update, MeterMap.Update runs with the
given outcome, and IDM.AddPoints proceeds with its emissions; the error
value Update returns is discarded at the call site (main.go line 82), so
the trace does not depend on it. -/
def processIDM (idm : IDM) (msgTime : Int) (msgType : String)
    (mirror : MeterState) (disk : Disk) (o : StoreOutcome) :
    List Event × MeterState × Disk :=
  let res := mupdate mirror disk (meterOf idm msgType) (newState idm msgTime) o
  (addPointsTrace idm msgTime msgType mirror, res.1, res.2.1)

/-- SCM message fields from main.go (type SCM). -/
structure SCM where
  endpointID : Nat
  endpointType : Nat
  consumption : Nat
deriving DecidableEq

/-- SCMPlus message fields from main.go (type SCMPlus). -/
structure SCMPlus where
  endpointID : Nat
  endpointType : Nat
  consumption : Nat
deriving DecidableEq

/-- R900 message fields from main.go (type R900). -/
structure R900 where
  endpointID : Nat
  endpointType : Nat
  consumption : Nat
  noUse : Nat
  backFlow : Nat
  leak : Nat
  leakNow : Nat
deriving DecidableEq

/-- SCM.AddPoints (main.go lines 159-170): one cumulative record at the
arrival time. -/
def scmTrace (scm : SCM) (msgTime : Int) (msgType : String) : List Event :=
  [Event.emit msgTime
    [("protocol", msgType), ("msg_type", "cumulative"),
     ("endpoint_type", toString scm.endpointType),
     ("endpoint_id", toString scm.endpointID)]
    [("consumption", (scm.consumption : Int))]]

/-- SCMPlus.AddPoints (main.go lines 180-192). -/
def scmPlusTrace (scm : SCMPlus) (msgTime : Int) (msgType : String) :
    List Event :=
  [Event.emit msgTime
    [("protocol", msgType), ("msg_type", "cumulative"),
     ("endpoint_type", toString scm.endpointType),
     ("endpoint_id", toString scm.endpointID)]
    [("consumption", (scm.consumption : Int))]]

/-- R900.AddPoints (main.go lines 207-224). -/
def r900Trace (r : R900) (msgTime : Int) (msgType : String) : List Event :=
  [Event.emit msgTime
    [("protocol", msgType), ("msg_type", "cumulative"),
     ("endpoint_type", toString r.endpointType),
     ("endpoint_id", toString r.endpointID)]
    [("consumption", (r.consumption : Int)), ("nouse", (r.noUse : Int)),
     ("backflow", (r.backFlow : Int)), ("leak", (r.leak : Int)),
     ("leak_now", (r.leakNow : Int))]]

/-- A decoded payload; the constructor records which variant schema the
line's Message bytes decode into. -/
inductive Payload where
  | idm : IDM → Payload
  | scm : SCM → Payload
  | scmplus : SCMPlus → Payload
  | r900 : R900 → Payload
deriving DecidableEq

/-- The decoder families selected by the switch on logMsg.Type. -/
inductive MsgKind where
  | scm
  | scmplus
  | idm
  | r900
deriving DecidableEq

/-- The switch on logMsg.Type (main.go lines 406-415): the six known tags
select a decoder; any other tag leaves msg nil, so no message is decoded. -/
def dispatch (typ : String) : Option MsgKind :=
  if typ = "SCM" then some MsgKind.scm
  else if typ = "SCM+" then some MsgKind.scmplus
  else if typ = "IDM" ∨ typ = "NetIDM" then some MsgKind.idm
  else if typ = "R900" ∨ typ = "R900BCD" then some MsgKind.r900
  else none

/-- One iteration of the stdin loop of main (main.go lines 393-454).  An
unknown tag leaves msg nil, json.Unmarshal into it fails, the error is
logged and the line is skipped with no state change; with strict mode an
IDM-tagged record of endpoint type 8 or a NetIDM-tagged record of endpoint
type 7 is dropped before any state update or emission; otherwise the
message's AddPoints runs.  A payload that does not decode as the tag's
schema is likewise logged and skipped. -/
def handleLine (strict : Bool) (msgTime : Int) (typ : String) (pl : Payload)
    (mirror : MeterState) (disk : Disk) (o : StoreOutcome) :
    List Event × MeterState × Disk :=
  match dispatch typ with
  | none => ([Event.logged "json unmarshal"], mirror, disk)
  | some MsgKind.idm =>
    match pl with
    | Payload.idm idm =>
      if strict && typ == "IDM" && idm.endpointType == 8 then
        ([], mirror, disk)
      else if strict && typ == "NetIDM" && idm.endpointType == 7 then
        ([], mirror, disk)
      else processIDM idm msgTime typ mirror disk o
    | _ => ([Event.logged "json unmarshal"], mirror, disk)
  | some MsgKind.scm =>
    match pl with
    | Payload.scm s => (scmTrace s msgTime typ, mirror, disk)
    | _ => ([Event.logged "json unmarshal"], mirror, disk)
  | some MsgKind.scmplus =>
    match pl with
    | Payload.scmplus s => (scmPlusTrace s msgTime typ, mirror, disk)
    | _ => ([Event.logged "json unmarshal"], mirror, disk)
  | some MsgKind.r900 =>
    match pl with
    | Payload.r900 r => (r900Trace r msgTime typ, mirror, disk)
    | _ => ([Event.logged "json unmarshal"], mirror, disk)

/-- One input line: tag, decoded payload, arrival time, and the store
outcome its (possible) update would see. -/
structure LineIn where
  typ : String
  payload : Payload
  time : Int
  outcome : StoreOutcome

/-- The stdin loop: lines are handled in order, threading the mirror and
the disk. -/
def runLines (strict : Bool) : List LineIn → MeterState → Disk → List Event
  | [], _, _ => []
  | l :: rest, mirror, disk =>
    let res := handleLine strict l.time l.typ l.payload mirror disk l.outcome
    res.1 ++ runLines strict rest res.2.1 res.2.2

/-- Concrete IDM payload of declared endpoint type 8 for the C6 witness. -/
def idmEx8 : IDM := ⟨8, 5, 0, 1, [2], [], 0, 0, 0, 0⟩

/-- The ForEach scan over the meters bucket (main.go lines 267-286), one
Option per stored pair: some means both key and value unmarshal, none means
msgpack.Unmarshal fails there.  ForEach stops at the first failing entry;
the pairs decoded before it stay in the map. -/
def scanEntries : List (Option (Meter × LastMessage)) →
    List (Meter × LastMessage)
  | [] => []
  | some p :: rest => p :: scanEntries rest
  | none :: _ => []

/-- NewMeterMap (main.go lines 251-295).  Modelled from the spec where the
bbolt library is involved: bbolt.Open may fail and its error is returned;
the View closure scans the bucket with ForEach.  The closure returns nil,
and the scan error that was assigned to the captured err is then
overwritten by the assignment of View's own result, so a scan failure is
silently swallowed: the prefix decoded before it is kept and no error is
returned. -/
def newMeterMap (openOk : Bool)
    (entries : List (Option (Meter × LastMessage))) :
    List (Meter × LastMessage) × Option String :=
  if openOk then (scanEntries entries, none)
  else ([], some "bbolt.Open")

/-- main.go lines 374-377: an error from NewMeterMap is passed to
log.Fatalf; none means the process exits before reading any input. -/
def mainStartup (openOk : Bool)
    (entries : List (Option (Meter × LastMessage))) :
    Option (List (Meter × LastMessage)) :=
  match newMeterMap openOk entries with
  | (_, some _) => none
  | (m, none) => some m

/-- Concrete IDM payload with an all-ones 6-byte outage field for the C8
witness. -/
def idmExOnes : IDM := ⟨7, 1, 0, 0, [3], List.replicate 6 255, 0, 0, 0, 0⟩

/-- Concrete IDM payload with 48 readings and a 7-byte outage slice for the
C10 witness. -/
def idmEx48 : IDM :=
  ⟨7, 2, 0, 0, List.replicate 48 1, List.replicate 7 255, 0, 0, 0, 0⟩

theorem goInterval_eq_emod (a idx : Nat) :
    goInterval a idx = (((a : Int) - (idx : Int)) % 256).toNat := by
  unfold goInterval
  have h256 : ((256 : Int)) ∣ twoPow64 := ⟨72057594037927936, by norm_num [twoPow64]⟩
  have hpos : (0 : Int) < twoPow64 := by norm_num [twoPow64]
  set x : Int := (a : Int) - (idx : Int) with hx
  have h1 : x % twoPow64 % 256 = x % 256 := Int.emod_emod_of_dvd x h256
  have hnn : 0 ≤ x % twoPow64 := Int.emod_nonneg x (by norm_num [twoPow64])
  have : (x % twoPow64).toNat % 256 = (x % twoPow64 % 256).toNat := by
    rcases Int.eq_ofNat_of_zero_le hnn with ⟨n, hn⟩
    simp [hn]
    omega
  rw [this, h1]

theorem goInterval_lt (a idx : Nat) : goInterval a idx < 256 := by
  unfold goInterval
  omega

theorem goInterval_inj (a i j : Nat) (hi : i < 256) (hj : j < 256)
    (h : goInterval a i = goInterval a j) : i = j := by
  rw [goInterval_eq_emod, goInterval_eq_emod] at h
  have hnn1 : 0 ≤ ((a : Int) - (i : Int)) % 256 :=
    Int.emod_nonneg _ (by norm_num)
  have hnn2 : 0 ≤ ((a : Int) - (j : Int)) % 256 :=
    Int.emod_nonneg _ (by norm_num)
  have heq : ((a : Int) - (i : Int)) % 256 = ((a : Int) - (j : Int)) % 256 := by
    omega
  have hdvd : (256 : Int) ∣ (((a : Int) - (i : Int)) - ((a : Int) - (j : Int))) := by
    apply Int.dvd_of_emod_eq_zero
    rw [Int.sub_emod, heq]
    simp
  rcases hdvd with ⟨k, hk⟩
  omega

/-- C9: For every differential message and reading offset idx, the computed
slot equals (currentIndex - idx) mod 256 in the mathematical sense, wrapping
correctly when currentIndex < idx (e.g. currentIndex = 2, idx = 5 gives 253),
despite the implementation computing a signed subtraction converted to
unsigned before taking the modulus. -/
theorem spec_c9_slot_arithmetic :
    (∀ a idx : Nat,
      goInterval a idx = (((a : Int) - (idx : Int)) % 256).toNat) ∧
    goInterval 2 5 = 253 := by
  refine ⟨goInterval_eq_emod, ?_⟩
  decide

theorem takeWhile_eq_take_of_getD {α : Type} (p : α → Bool) (d : α) :
    ∀ (l : List α) (i : Nat), i < l.length →
      (∀ j, j < i → p (l.getD j d) = true) → p (l.getD i d) = false →
      l.takeWhile p = l.take i
  | [], i, h, _, _ => absurd h (by simp)
  | x :: l, 0, _, _, hstop => by
    have hx : p x = false := by simpa using hstop
    simp [List.takeWhile_cons, hx]
  | x :: l, i + 1, h, hall, hstop => by
    have hx : p x = true := by simpa using hall 0 (Nat.succ_pos i)
    simp only [List.takeWhile_cons, hx, if_true, List.take_succ_cons]
    rw [takeWhile_eq_take_of_getD p d l i (by simpa using h)
        (fun j hj => by simpa using hall (j + 1) (by omega))
        (by simpa using hstop)]

theorem takeWhile_eq_self_of_getD {α : Type} (p : α → Bool) (d : α) :
    ∀ (l : List α), (∀ j, j < l.length → p (l.getD j d) = true) →
      l.takeWhile p = l
  | [], _ => rfl
  | x :: l, hall => by
    have hx : p x = true := by simpa using hall 0 (by simp)
    simp only [List.takeWhile_cons, hx, if_true]
    rw [takeWhile_eq_self_of_getD p d l
        (fun j hj => by simpa using hall (j + 1) (by simpa using hj))]

theorem diffRecsAux_some_eq_takeWhile (a : Nat) (mt off : Int) (w : Nat)
    (st : LastMessage) :
    ∀ (us : List Nat) (k : Nat),
      diffRecsAux a mt off w (some st) k us =
        (diffRecsAux a mt off w none k us).takeWhile
          (fun r => !(r.interval == st.interval && inThreshold (st.time - r.time)))
  | [], _ => rfl
  | u :: us, k => by
    simp only [diffRecsAux]
    have hrec : (mkRec a mt off w k u).interval = goInterval a k ∧
        (mkRec a mt off w k u).time = intervalTime mt off k := ⟨rfl, rfl⟩
    by_cases h : goInterval a k = st.interval ∧
        inThreshold (st.time - intervalTime mt off k) = true
    · rw [if_pos h, List.takeWhile_cons]
      have hp : (!((mkRec a mt off w k u).interval == st.interval &&
          inThreshold (st.time - (mkRec a mt off w k u).time))) = false := by
        rw [hrec.1, hrec.2, h.1, h.2]
        simp
      rw [hp]
      simp
    · rw [if_neg h, List.takeWhile_cons]
      have hp : (!((mkRec a mt off w k u).interval == st.interval &&
          inThreshold (st.time - (mkRec a mt off w k u).time))) = true := by
        rw [hrec.1, hrec.2]
        cases hB : inThreshold (st.time - intervalTime mt off k)
        · simp
        · have hA : ¬(goInterval a k = st.interval) := fun hA => h ⟨hA, hB⟩
          simp [hA]
      rw [hp]
      simp only [if_true]
      rw [diffRecsAux_some_eq_takeWhile a mt off w st us (k + 1)]

theorem diffRecsAux_none_length (a : Nat) (mt off : Int) (w : Nat) :
    ∀ (us : List Nat) (k : Nat),
      (diffRecsAux a mt off w none k us).length = us.length
  | [], _ => rfl
  | _ :: us, k => by
    simp [diffRecsAux, diffRecsAux_none_length a mt off w us (k + 1)]

theorem diffRecsAux_none_getD (a : Nat) (mt off : Int) (w : Nat) (d : DiffRec) :
    ∀ (us : List Nat) (k j : Nat), j < us.length →
      (diffRecsAux a mt off w none k us).getD j d =
        mkRec a mt off w (k + j) (us.getD j 0)
  | [], _, j, h => absurd h (by simp)
  | u :: us, k, 0, _ => by simp [diffRecsAux]
  | u :: us, k, j + 1, h => by
    simp only [diffRecsAux, List.getD_cons_succ]
    rw [diffRecsAux_none_getD a mt off w d us (k + 1) j (by simpa using h)]
    congr 1
    omega

/-- C1: With prior stored state, at the first reading whose computed slot
equals the stored slot index: a time difference strictly inside the 30 s
threshold stops emission there (only the earlier readings are emitted);
an exactly equal timestamp in particular stops emission there; a
difference at or beyond the threshold leaves all readings emitted. -/
theorem spec_c1_dedup_stop (idm : IDM) (msgTime : Int) (st : LastMessage)
    (i : Nat) (hi : i < idm.intervalDiff.length)
    (hmatch : goInterval idm.intervalIdx i = st.interval)
    (hfirst : ∀ j, j < i → goInterval idm.intervalIdx j ≠ st.interval) :
    (inThreshold (st.time -
        intervalTime msgTime (intervalOffset idm.transmitTime) i) = true →
      diffRecs idm msgTime (some st) = (diffRecs idm msgTime none).take i) ∧
    (st.time = intervalTime msgTime (intervalOffset idm.transmitTime) i →
      diffRecs idm msgTime (some st) = (diffRecs idm msgTime none).take i) ∧
    (inThreshold (st.time -
        intervalTime msgTime (intervalOffset idm.transmitTime) i) = false →
      idm.intervalDiff.length ≤ 256 →
      diffRecs idm msgTime (some st) = diffRecs idm msgTime none) := by
  set a := idm.intervalIdx with ha
  set mt := msgTime with hmt
  set off := intervalOffset idm.transmitTime with hoff
  set w := outageWord idm.outage with hw
  set us := idm.intervalDiff with hus
  let d : DiffRec := ⟨0, 0, 0, 0, false⟩
  have hTW := diffRecsAux_some_eq_takeWhile a mt off w st us 0
  have hlen := diffRecsAux_none_length a mt off w us 0
  have hgetD : ∀ j, j < us.length →
      (diffRecsAux a mt off w none 0 us).getD j d =
        mkRec a mt off w j (us.getD j 0) := by
    intro j hj
    simpa using diffRecsAux_none_getD a mt off w d us 0 j hj
  have hdr : diffRecs idm msgTime (some st) =
      diffRecsAux a mt off w (some st) 0 us := rfl
  have hdrn : diffRecs idm msgTime none =
      diffRecsAux a mt off w none 0 us := rfl
  have hstop : inThreshold (st.time - intervalTime mt off i) = true →
      diffRecs idm msgTime (some st) = (diffRecs idm msgTime none).take i := by
    intro hthr
    rw [hdr, hdrn, hTW]
    apply takeWhile_eq_take_of_getD _ d
    · rw [hlen]
      exact hi
    · intro j hj
      rw [hgetD j (by omega)]
      have hne : (goInterval a j == st.interval) = false := by
        simp [hfirst j hj]
      simp [mkRec, hne]
    · rw [hgetD i hi]
      simp [mkRec, hmatch, hthr]
  refine ⟨hstop, ?_, ?_⟩
  · intro heq
    apply hstop
    rw [heq, sub_self]
    decide
  · intro hthr hlen256
    rw [hdr, hdrn, hTW]
    apply takeWhile_eq_self_of_getD _ d
    intro j hj
    rw [hlen] at hj
    rw [hgetD j hj]
    by_cases hji : j = i
    · subst hji
      simp [mkRec, hthr]
    · have hne : goInterval a j ≠ st.interval := by
        intro hEq
        exact hji (goInterval_inj a j i (by omega) (by omega)
          (hEq.trans hmatch.symm))
      have hne2 : (goInterval a j == st.interval) = false := by
        simp [hne]
      simp [mkRec, hne2]

theorem spec_c1_dedup_stop_witness :
    (2 : Nat) < idmEx1.intervalDiff.length ∧
    diffRecs idmEx1 (600 * 1000000000) (some ⟨0, 10⟩) =
      (diffRecs idmEx1 (600 * 1000000000) none).take 2 :=
  ⟨by decide,
    (spec_c1_dedup_stop idmEx1 (600 * 1000000000) ⟨0, 10⟩ 2 (by decide)
      (by decide) (by decide)).1 (by decide)⟩

/-- C2 counterexample: a differential message from a meter with no prior
state.  The claim says the readings are emitted first and the state
persisted afterwards; in the code the store update is issued before any
emission, so an emit event follows the update event in the trace. -/
theorem spec_c2_counterexample :
    emptyMirror (meterOf idmEx1 "IDM") = none ∧
    idmEx1.intervalDiff ≠ [] ∧
    noEmitAfterUpdate (addPointsTrace idmEx1 0 "IDM" emptyMirror) = false := by
  refine ⟨rfl, by decide, by decide⟩

/-- C2 amended: for every differential message, with or without prior
state, the store update is the first event of the trace — it precedes every
emission and dedup decision — it stores the latest message's anchor/slot
pair, it is the only update of the trace, and everything after it is an
emission.  Hence after processing, the stored state equals the latest
message's anchor/slot pair regardless of suppression. -/
theorem spec_c2_state_persisted (idm : IDM) (msgTime : Int) (msgType : String)
    (mirror : MeterState) :
    (addPointsTrace idm msgTime msgType mirror).head? =
      some (Event.update (meterOf idm msgType) (newState idm msgTime)) ∧
    (∀ m s, Event.update m s ∈ addPointsTrace idm msgTime msgType mirror →
      m = meterOf idm msgType ∧ s = newState idm msgTime) ∧
    (∀ e ∈ (addPointsTrace idm msgTime msgType mirror).tail,
      isEmit e = true) := by
  refine ⟨rfl, ?_, ?_⟩
  · intro m s hmem
    simp only [addPointsTrace, List.mem_cons] at hmem
    rcases hmem with h | h | h
    · injection h with h1 h2
      exact ⟨h1, h2⟩
    · exact absurd h (by simp)
    · rcases List.mem_map.mp h with ⟨r, _, hr⟩
      exact absurd hr (by simp)
  · intro e he
    simp only [addPointsTrace, List.tail_cons, List.mem_cons] at he
    rcases he with h | h
    · rw [h]
      rfl
    · rcases List.mem_map.mp h with ⟨r, _, hr⟩
      rw [← hr]
      rfl

theorem spec_c2_state_persisted_witness :
    meterOf idmEx1 "IDM" = meterOf idmEx1 "IDM" ∧
    newState idmEx1 0 = newState idmEx1 0 :=
  (spec_c2_state_persisted idmEx1 0 "IDM" emptyMirror).2.1
    (meterOf idmEx1 "IDM") (newState idmEx1 0) (List.mem_cons_self _ _)

/-- C3: In MeterMap.Update the in-memory mirror is modified only after the
new identity/state pair is durably committed: when the call returns an
error the mirror and disk are unchanged; when it succeeds both hold the new
pair; and in the event order every mirror assignment is preceded by a
durable commit of the same pair. -/
theorem spec_c3_mirror_after_commit (mirror : MeterState) (disk : Disk)
    (meter : Meter) (msg : LastMessage) (o : StoreOutcome) :
    ((mupdate mirror disk meter msg o).2.2.2.isSome = true →
      (mupdate mirror disk meter msg o).1 = mirror ∧
      (mupdate mirror disk meter msg o).2.1 = disk) ∧
    ((mupdate mirror disk meter msg o).2.2.2 = none →
      (mupdate mirror disk meter msg o).1 = setState mirror meter msg ∧
      (mupdate mirror disk meter msg o).2.1 = setState disk meter msg) ∧
    commitBeforeMirror [] (mupdate mirror disk meter msg o).2.2.1 = true := by
  rcases o with ⟨mk, mv, pk, ck⟩
  cases mk <;> cases mv <;> cases pk <;> cases ck <;>
    simp [mupdate, commitBeforeMirror, List.contains_cons]

theorem spec_c3_mirror_after_commit_witness :
    emptyMirror = emptyMirror ∧ (fun _ => none : Disk) = (fun _ => none) :=
  (spec_c3_mirror_after_commit emptyMirror (fun _ => none)
    (meterOf idmEx1 "IDM") (newState idmEx1 0) ⟨true, true, true, false⟩).1
    (by rfl)

/-- C4 counterexample: a differential message whose state-store update
fails (bkt.Put error).  MeterMap.Update returns the error, the records are
still emitted, but the claim's required log record with the meter identity
never appears: IDM.AddPoints discards the returned error without logging. -/
theorem spec_c4_counterexample :
    (mupdate emptyMirror (fun _ => none) (meterOf idmEx1 "IDM")
        (newState idmEx1 0) ⟨true, true, false, true⟩).2.2.2.isSome = true ∧
    ((processIDM idmEx1 0 "IDM" emptyMirror (fun _ => none)
        ⟨true, true, false, true⟩).1.all (fun e => !(isLogged e))) = true ∧
    ((processIDM idmEx1 0 "IDM" emptyMirror (fun _ => none)
        ⟨true, true, false, true⟩).1.any isEmit) = true := by
  refine ⟨rfl, by decide, by decide⟩

/-- C4 amended: MeterMap.Update surfaces a failure of any step of the
transaction as its return value, but IDM.AddPoints discards that value:
the emitted records are identical for every store outcome (the write
failure never suppresses emission), and no log record is produced. -/
theorem spec_c4_update_error_ignored (idm : IDM) (msgTime : Int)
    (msgType : String) (mirror : MeterState) (disk disk2 : Disk)
    (o o2 : StoreOutcome) :
    (processIDM idm msgTime msgType mirror disk o).1 =
      (processIDM idm msgTime msgType mirror disk2 o2).1 ∧
    ((processIDM idm msgTime msgType mirror disk o).1.all
      (fun e => !(isLogged e))) = true ∧
    ((mupdate mirror disk (meterOf idm msgType) (newState idm msgTime)
        o).2.2.2 = none ↔
      (o.marshalKeyOk = true ∧ o.marshalValOk = true ∧ o.putOk = true ∧
        o.commitOk = true)) := by
  refine ⟨rfl, ?_, ?_⟩
  · simp only [processIDM, addPointsTrace, List.all_cons, List.all_map]
    simp [isLogged, Function.comp]
  · rcases o with ⟨mk, mv, pk, ck⟩
    cases mk <;> cases mv <;> cases pk <;> cases ck <;> simp [mupdate]

/-- C7: An input line whose protocol tag is none of SCM, SCM+, IDM, NetIDM,
R900, R900BCD decodes to no message; the line is skipped non-fatally with
no emitted record and no state update, and the pipeline continues with the
remaining lines from an unchanged state. -/
theorem spec_c7_unknown_tag (strict : Bool) (msgTime : Int) (typ : String)
    (pl : Payload) (mirror : MeterState) (disk : Disk) (o : StoreOutcome)
    (rest : List LineIn)
    (h1 : typ ≠ "SCM") (h2 : typ ≠ "SCM+") (h3 : typ ≠ "IDM")
    (h4 : typ ≠ "NetIDM") (h5 : typ ≠ "R900") (h6 : typ ≠ "R900BCD") :
    dispatch typ = none ∧
    handleLine strict msgTime typ pl mirror disk o =
      ([Event.logged "json unmarshal"], mirror, disk) ∧
    ((handleLine strict msgTime typ pl mirror disk o).1.all
      (fun e => !(isEmit e) && !(isUpdate e))) = true ∧
    runLines strict (⟨typ, pl, msgTime, o⟩ :: rest) mirror disk =
      Event.logged "json unmarshal" :: runLines strict rest mirror disk := by
  have hd : dispatch typ = none := by
    simp [dispatch, h1, h2, h3, h4, h5, h6]
  refine ⟨hd, by simp [handleLine, hd], ?_, ?_⟩
  · simp [handleLine, hd, isEmit, isUpdate]
  · simp [runLines, handleLine, hd]

theorem spec_c7_unknown_tag_witness :
    dispatch "FOO" = none ∧
    handleLine false 0 "FOO" (Payload.idm idmEx1) emptyMirror (fun _ => none)
        ⟨true, true, true, true⟩ =
      ([Event.logged "json unmarshal"], emptyMirror, (fun _ => none)) :=
  ⟨(spec_c7_unknown_tag false 0 "FOO" (Payload.idm idmEx1) emptyMirror
      (fun _ => none) ⟨true, true, true, true⟩ [] (by decide) (by decide)
      (by decide) (by decide) (by decide) (by decide)).1,
   (spec_c7_unknown_tag false 0 "FOO" (Payload.idm idmEx1) emptyMirror
      (fun _ => none) ⟨true, true, true, true⟩ [] (by decide) (by decide)
      (by decide) (by decide) (by decide) (by decide)).2.1⟩

/-- C6: With strict mode enabled, an IDM-tagged record of declared endpoint
type 8 (reserved for NetIDM) and a NetIDM-tagged record of type 7 (reserved
for IDM) are dropped before any state update or emission, while the same
payload under the matching tag is processed normally; with strict mode
disabled no record is dropped by the filter. -/
theorem spec_c6_strict_filter (idm : IDM) (msgTime : Int)
    (mirror : MeterState) (disk : Disk) (o : StoreOutcome) :
    (idm.endpointType = 8 →
      handleLine true msgTime "IDM" (Payload.idm idm) mirror disk o =
        ([], mirror, disk) ∧
      handleLine true msgTime "NetIDM" (Payload.idm idm) mirror disk o =
        processIDM idm msgTime "NetIDM" mirror disk o) ∧
    (idm.endpointType = 7 →
      handleLine true msgTime "NetIDM" (Payload.idm idm) mirror disk o =
        ([], mirror, disk) ∧
      handleLine true msgTime "IDM" (Payload.idm idm) mirror disk o =
        processIDM idm msgTime "IDM" mirror disk o) ∧
    handleLine false msgTime "IDM" (Payload.idm idm) mirror disk o =
      processIDM idm msgTime "IDM" mirror disk o ∧
    handleLine false msgTime "NetIDM" (Payload.idm idm) mirror disk o =
      processIDM idm msgTime "NetIDM" mirror disk o := by
  have hIDM : dispatch "IDM" = some MsgKind.idm := by decide
  have hNet : dispatch "NetIDM" = some MsgKind.idm := by decide
  refine ⟨?_, ?_, ?_, ?_⟩
  · intro h8
    constructor
    · simp [handleLine, hIDM, h8]
    · simp [handleLine, hNet, h8]
  · intro h7
    constructor
    · simp [handleLine, hNet, h7]
    · simp [handleLine, hIDM, h7]
  · simp [handleLine, hIDM]
  · simp [handleLine, hNet]

theorem spec_c6_strict_filter_witness :
    handleLine true 0 "IDM" (Payload.idm idmEx8) emptyMirror (fun _ => none)
        ⟨true, true, true, true⟩ = ([], emptyMirror, (fun _ => none)) ∧
    handleLine true 0 "NetIDM" (Payload.idm idmEx8) emptyMirror
        (fun _ => none) ⟨true, true, true, true⟩ =
      processIDM idmEx8 0 "NetIDM" emptyMirror (fun _ => none)
        ⟨true, true, true, true⟩ :=
  (spec_c6_strict_filter idmEx8 0 emptyMirror (fun _ => none)
    ⟨true, true, true, true⟩).1 rfl

/-- C5 counterexample: a failing bbolt.Open during preload.  NewMeterMap
returns the error and main calls log.Fatalf, so the preload error is fatal
and processing does not continue, contrary to the claim. -/
theorem spec_c5_counterexample :
    (newMeterMap false []).2.isSome = true ∧
    mainStartup false [] = none :=
  ⟨rfl, rfl⟩

/-- C5 amended: a bbolt.Open failure at preload is fatal (the process
exits); a per-entry unmarshal failure during the scan is silently swallowed
— no error is surfaced or logged — and the store keeps exactly the entries
decoded before the failing one, after which processing continues. -/
theorem spec_c5_preload_errors
    (entries : List (Option (Meter × LastMessage)))
    (ps : List (Meter × LastMessage))
    (rest : List (Option (Meter × LastMessage))) :
    mainStartup false entries = none ∧
    mainStartup true entries = some (scanEntries entries) ∧
    (newMeterMap true entries).2 = none ∧
    scanEntries (ps.map some ++ none :: rest) = ps := by
  refine ⟨rfl, rfl, rfl, ?_⟩
  induction ps with
  | nil => rfl
  | cons p ps ih => simp [scanEntries, ih]

theorem mem_diffRecsAux_none (a : Nat) (mt off : Int) (w : Nat) (r : DiffRec) :
    ∀ (us : List Nat) (k : Nat), r ∈ diffRecsAux a mt off w none k us →
      ∃ j, j < us.length ∧ r = mkRec a mt off w (k + j) (us.getD j 0)
  | [], _, h => absurd h (by simp [diffRecsAux])
  | u :: us, k, h => by
    simp only [diffRecsAux, List.mem_cons] at h
    rcases h with h | h
    · exact ⟨0, by simp, by simpa using h⟩
    · rcases mem_diffRecsAux_none a mt off w r us (k + 1) h with ⟨j, hj, hr⟩
      refine ⟨j + 1, by simpa using Nat.succ_lt_succ hj, ?_⟩
      rw [List.getD_cons_succ]
      have hk : k + (j + 1) = k + 1 + j := by omega
      rw [hk]
      exact hr

theorem mem_diffRecs (idm : IDM) (msgTime : Int)
    (stateOpt : Option LastMessage) (r : DiffRec)
    (h : r ∈ diffRecs idm msgTime stateOpt) :
    ∃ j, j < idm.intervalDiff.length ∧
      r = mkRec idm.intervalIdx msgTime (intervalOffset idm.transmitTime)
        (outageWord idm.outage) j (idm.intervalDiff.getD j 0) := by
  have hmem : r ∈ diffRecsAux idm.intervalIdx msgTime
      (intervalOffset idm.transmitTime) (outageWord idm.outage) none 0
      idm.intervalDiff := by
    cases stateOpt with
    | none => exact h
    | some st =>
      have hTW := diffRecsAux_some_eq_takeWhile idm.intervalIdx msgTime
        (intervalOffset idm.transmitTime) (outageWord idm.outage) st
        idm.intervalDiff 0
      rw [diffRecs, hTW] at h
      exact (List.takeWhile_sublist _).subset h
  simpa using mem_diffRecsAux_none idm.intervalIdx msgTime
    (intervalOffset idm.transmitTime) (outageWord idm.outage) r
    idm.intervalDiff 0 hmem

theorem goShift_small (idx : Nat) (h : idx ≤ 46) : goShift idx = 46 - idx := by
  unfold goShift
  have h0 : (0 : Int) ≤ (46 : Int) - (idx : Int) := by omega
  have hlt : (46 : Int) - (idx : Int) < twoPow64 := by
    simp only [twoPow64]
    omega
  rw [Int.emod_eq_of_lt h0 hlt]
  omega

theorem goShift_large (idx : Nat) (h47 : 47 ≤ idx) (hb : idx ≤ 2 ^ 63) :
    64 ≤ goShift idx := by
  unfold goShift
  have hpow : (2 : Nat) ^ 63 = 9223372036854775808 := by norm_num
  rw [hpow] at hb
  simp only [twoPow64]
  omega

theorem beUint64_zero (bs : List Nat) (h : ∀ b ∈ bs, b = 0) :
    beUint64 bs = 0 := by
  unfold beUint64
  induction bs with
  | nil => rfl
  | cons b rest ih =>
    have hb : b = 0 := h b (List.mem_cons_self _ _)
    rw [List.foldl_cons, hb]
    exact ih (fun x hx => h x (List.mem_cons_of_mem _ hx))

theorem outageWord_zero (bs : List Nat) (h : ∀ b ∈ bs, b = 0) :
    outageWord bs = 0 := by
  apply beUint64_zero
  intro b hb
  simp only [outageBytes, List.cons_append, List.nil_append,
    List.mem_cons, List.mem_append] at hb
  rcases hb with h0 | h0 | h0 | h0
  · exact h0
  · exact h0
  · exact h b (List.take_subset 6 bs h0)
  · exact List.eq_of_mem_replicate h0

theorem beUint64_fold_lt :
    ∀ (bs : List Nat) (acc : Nat),
      bs.foldl (fun a b => a * 256 + b % 256) acc < (acc + 1) * 256 ^ bs.length
  | [], acc => by simp
  | b :: bs, acc => by
    have h1 := beUint64_fold_lt bs (acc * 256 + b % 256)
    have hb : b % 256 < 256 := Nat.mod_lt _ (by norm_num)
    have h2 : (acc * 256 + b % 256 + 1) * 256 ^ bs.length ≤
        ((acc + 1) * 256) * 256 ^ bs.length := by
      apply Nat.mul_le_mul_right
      omega
    rw [List.foldl_cons, List.length_cons, pow_succ]
    calc List.foldl (fun a b => a * 256 + b % 256) (acc * 256 + b % 256) bs
        < (acc * 256 + b % 256 + 1) * 256 ^ bs.length := h1
      _ ≤ ((acc + 1) * 256) * 256 ^ bs.length := h2
      _ = (acc + 1) * (256 ^ bs.length * 256) := by ring

theorem outageWord_lt (bs : List Nat) : outageWord bs < 2 ^ 48 := by
  unfold outageWord beUint64 outageBytes
  have h00 : ((([0, 0] : List Nat) ++
      (bs.take 6 ++ List.replicate (6 - bs.length) 0))) =
      0 :: 0 :: (bs.take 6 ++ List.replicate (6 - bs.length) 0) := rfl
  rw [h00, List.foldl_cons, List.foldl_cons]
  have hstep : ((0 : Nat) * 256 + 0 % 256) * 256 + 0 % 256 = 0 := by norm_num
  rw [hstep]
  have hlen : (bs.take 6 ++ List.replicate (6 - bs.length) 0).length = 6 := by
    simp only [List.length_append, List.length_take, List.length_replicate]
    omega
  have hfold := beUint64_fold_lt (bs.take 6 ++ List.replicate (6 - bs.length) 0) 0
  rw [hlen] at hfold
  exact lt_of_lt_of_le hfold (by norm_num)

theorem outageBit_large (w idx : Nat) (hw : w < 2 ^ 48) (h47 : 47 ≤ idx)
    (hb : idx ≤ 2 ^ 63) : outageBit w idx = false := by
  unfold outageBit
  have hs := goShift_large idx h47 hb
  have hz : w >>> goShift idx = 0 := by
    rw [Nat.shiftRight_eq_div_pow]
    apply Nat.div_eq_of_lt
    calc w < 2 ^ 48 := hw
      _ ≤ 2 ^ goShift idx := Nat.pow_le_pow_right (by norm_num) (by omega)
  rw [hz]
  rfl

theorem outageBit_allOnes :
    ∀ idx, idx < 47 →
      outageBit (outageWord (List.replicate 6 255)) idx = true := by
  decide

/-- C8: The outage bit for the reading at offset idx is bit (46 - idx) of
the 6-byte outage field zero-extended to 8 bytes read big-endian: with an
all-ones 6-byte field every emitted differential reading with idx at most
46 carries the field outage = 1; with an all-zero field no emitted reading
ever carries the outage field. -/
theorem spec_c8_outage_bits (idm : IDM) (msgTime : Int)
    (stateOpt : Option LastMessage) :
    (idm.outage = List.replicate 6 255 →
      ∀ r ∈ diffRecs idm msgTime stateOpt, r.idx ≤ 46 →
        ("outage", (1 : Int)) ∈ diffFields r) ∧
    ((∀ b ∈ idm.outage, b = 0) →
      ∀ r ∈ diffRecs idm msgTime stateOpt, ∀ v : Int,
        ("outage", v) ∉ diffFields r) := by
  constructor
  · intro hout r hr hidx
    rcases mem_diffRecs idm msgTime stateOpt r hr with ⟨j, hj, hrec⟩
    have hjdx : r.idx = j := by rw [hrec]; rfl
    have houtage : r.outage = true := by
      rw [hrec]
      show outageBit (outageWord idm.outage) j = true
      rw [hout]
      exact outageBit_allOnes j (by omega)
    simp [diffFields, houtage]
  · intro hzero r hr v
    rcases mem_diffRecs idm msgTime stateOpt r hr with ⟨j, hj, hrec⟩
    have hw : outageWord idm.outage = 0 := outageWord_zero _ hzero
    have houtage : r.outage = false := by
      rw [hrec]
      show outageBit (outageWord idm.outage) j = false
      rw [hw]
      simp [outageBit]
    simp [diffFields, houtage]

theorem spec_c8_outage_bits_witness :
    ("outage", (1 : Int)) ∈ diffFields
      (mkRec idmExOnes.intervalIdx 7 (intervalOffset idmExOnes.transmitTime)
        (outageWord idmExOnes.outage) 0 3) :=
  (spec_c8_outage_bits idmExOnes 7 none).1 (by decide)
    (mkRec idmExOnes.intervalIdx 7 (intervalOffset idmExOnes.transmitTime)
      (outageWord idmExOnes.outage) 0 3)
    (by decide) (by decide)

/-- C10: IDM.AddPoints is total on every well-typed input.  For a reading
at offset idx at least 47 the Go shift count uint(46 - idx) wraps to at
least 64, the shifted word is zero and the outage field is never set; an
outage slice longer than 6 bytes contributes only its first 6 bytes; an
empty readings list emits nothing; and with no prior state the loop emits
one record per reading, also for more than 47 readings. -/
theorem spec_c10_totality (idm : IDM) (msgTime : Int)
    (stateOpt : Option LastMessage)
    (hlen : idm.intervalDiff.length ≤ 2 ^ 63) :
    (∀ r ∈ diffRecs idm msgTime stateOpt, 47 ≤ r.idx →
      r.outage = false ∧ 64 ≤ goShift r.idx) ∧
    outageWord (idm.outage.take 6) = outageWord idm.outage ∧
    (idm.intervalDiff = [] → diffRecs idm msgTime stateOpt = []) ∧
    (stateOpt = none →
      (diffRecs idm msgTime stateOpt).length = idm.intervalDiff.length) := by
  refine ⟨?_, ?_, ?_, ?_⟩
  · intro r hr h47
    rcases mem_diffRecs idm msgTime stateOpt r hr with ⟨j, hj, hrec⟩
    have hjdx : r.idx = j := by rw [hrec]; rfl
    have hjb : j ≤ 2 ^ 63 := by omega
    constructor
    · rw [hrec]
      show outageBit (outageWord idm.outage) j = false
      exact outageBit_large _ _ (outageWord_lt idm.outage) (by omega) hjb
    · exact goShift_large r.idx h47 (by omega)
  · unfold outageWord outageBytes
    have hA : (idm.outage.take 6).take 6 = idm.outage.take 6 := by
      simp [List.take_take]
    have hB : List.replicate (6 - (idm.outage.take 6).length) (0 : Nat) =
        List.replicate (6 - idm.outage.length) 0 := by
      rw [List.length_take]
      congr 1
      omega
    rw [hA, hB]
  · intro h
    simp [diffRecs, h, diffRecsAux]
  · intro h
    rw [h]
    exact diffRecsAux_none_length idm.intervalIdx msgTime
      (intervalOffset idm.transmitTime) (outageWord idm.outage)
      idm.intervalDiff 0

theorem spec_c10_totality_witness :
    idmEx48.intervalDiff.length ≤ 2 ^ 63 ∧
    (diffRecs idmEx48 0 none).length = idmEx48.intervalDiff.length :=
  ⟨by decide, (spec_c10_totality idmEx48 0 none (by decide)).2.2.2 rfl⟩
